import Mathlib

/-!
Shallow embedding of the data-normalization and derived-metrics core of
`app_assignment3.py` (Lebanon external-finance dashboard), together with
theorems checking the specification's claims against it.

Conventions of the embedding:
* A raw CSV cell is either a numeric value (anything `pd.to_numeric` would
  accept, already parsed), a non-numeric string, or a missing value (NaN).
  Machine floats are modelled by `ℚ`; the special IEEE values produced by
  division (`inf`, `-inf`, `NaN`) are modelled explicitly by `FVal`.
* A raw table is column-oriented metadata (`cols`) plus row-major cells.
  Column names are treated as distinct, as `pd.read_csv` mangles duplicates.
* Exceptions raised by the Python code are modelled with `Except`.
-/

/-- A raw CSV cell after `pd.read_csv`: a numeric value, a non-numeric
string, or a missing value (NaN). Strings that parse as numbers are
represented as `num` since both `read_csv` and `pd.to_numeric` parse them. -/
inductive Cell where
  | num (q : ℚ)
  | str (s : String)
  | null
deriving DecidableEq, Repr

/-- A raw table: ordered column names plus row-major cells
(each row aligned positionally with `cols`). -/
structure RawTable where
  cols : List String
  rows : List (List Cell)
deriving DecidableEq, Repr

/-- Index of the column named `c` (first occurrence), as `df[c]` resolves it. -/
def colIdx (cols : List String) (c : String) : Option Nat :=
  cols.indexOf? c

/-- The cell of `row` in column `c`, `none` when the column is absent. -/
def getCell (cols : List String) (row : List Cell) (c : String) : Option Cell :=
  (colIdx cols c).bind fun i => row.get? i

/-- Alias list searched for `refPeriod` (src line 40). -/
def periodAliases : List String := ["Year", "year", "RefPeriod", "refperiod"]

/-- Alias list searched for `Indicator Code` (src line 43). -/
def codeAliases : List String := ["Indicator_Code", "IndicatorCode", "indicator_code"]

/-- Alias list searched for `Value` (src line 46). -/
def valueAliases : List String := ["value", "VAL", "Amount"]

/-- If the canonical name is absent from `cols`, the first alias present in
`cols` (the `for alt in [...]: if alt in df.columns: ...; break` loops,
src lines 39-47); `none` when the canonical name is already there. -/
def findAlias (cols : List String) (canonical : String) (alts : List String) :
    Option String :=
  if canonical ∈ cols then none else alts.find? (fun a => decide (a ∈ cols))

/-- The rename dictionary `ren` built by `normalize_columns`
(src lines 38-47): at most one entry per canonical field. -/
def buildRen (cols : List String) : List (String × String) :=
  ((findAlias cols "refPeriod" periodAliases).map (fun a => (a, "refPeriod"))).toList ++
  ((findAlias cols "Indicator Code" codeAliases).map (fun a => (a, "Indicator Code"))).toList ++
  ((findAlias cols "Value" valueAliases).map (fun a => (a, "Value"))).toList

/-- `df.rename(columns=ren)` (src line 48): every column whose name is a key
of `ren` is renamed; all other columns are untouched. -/
def renameCols (ren : List (String × String)) (cols : List String) : List String :=
  cols.map fun c => ((ren.find? (fun p => p.1 = c)).map Prod.snd).getD c

/-- The canonical required column set (src line 50). -/
def requiredCols : List String := ["refPeriod", "Indicator Code", "Value"]

/-- `ValueError` raised when required columns are missing (src line 53):
carries the missing fields and the columns actually found. -/
structure SchemaError where
  missing : List String
  found : List String
deriving DecidableEq, Repr

/-- `pd.to_numeric(col, errors="coerce")` on one cell: numeric cells stay,
everything else becomes missing (NaN) rather than raising. -/
def coerceCell : Cell → Cell
  | .num q => .num q
  | _ => .null

/-- Coerce the `refPeriod` and `Value` columns to numeric (src lines 55-56). -/
def coerceColumns (t : RawTable) : RawTable :=
  ⟨t.cols,
   t.rows.map fun row =>
     (t.cols.zip row).map fun pc =>
       if pc.1 = "refPeriod" ∨ pc.1 = "Value" then coerceCell pc.2 else pc.2⟩

/-- Whether an optional cell holds a numeric value. -/
def isNumCell : Option Cell → Bool
  | some (.num _) => true
  | _ => false

/-- `df.dropna(subset=["refPeriod","Value"])` (src line 57): keep exactly the
rows whose `refPeriod` and `Value` cells are numeric, in order. -/
def dropnaPV (t : RawTable) : RawTable :=
  ⟨t.cols,
   t.rows.filter fun row =>
     isNumCell (getCell t.cols row "refPeriod") && isNumCell (getCell t.cols row "Value")⟩

/-- `normalize_columns` (src lines 37-57): alias renaming, required-column
validation (`missing = required - set(df.columns)`), numeric coercion of
`refPeriod`/`Value`, and dropping of rows with missing period or value. -/
def normalize_columns (t : RawTable) : Except SchemaError RawTable :=
  if requiredCols.filter (fun c => decide (c ∉ renameCols (buildRen t.cols) t.cols)) = [] then
    .ok (dropnaPV (coerceColumns ⟨renameCols (buildRen t.cols) t.cols, t.rows⟩))
  else
    .error ⟨requiredCols.filter (fun c => decide (c ∉ renameCols (buildRen t.cols) t.cols)),
            renameCols (buildRen t.cols) t.cols⟩

/-- A Python runtime error surfaced by the friendly-name loader. -/
inductive PyError where
  | nameError (undefinedName : String)
deriving DecidableEq, Repr

/-- `load_mapping` (src lines 20-24). The argument is the parsed content of
`debt_code_mapping.csv` when that file exists, `none` when it is absent.
When the file is absent the source evaluates `_fallback_map`, a name that is
defined nowhere in the program, so Python raises
`NameError: name '_fallback_map' is not defined`; that branch is modelled as
`.error`. -/
def load_mapping (fileContents : Option (List (String × String))) :
    Except PyError (List (String × String)) :=
  match fileContents with
  | some m => .ok m
  | none => .error (.nameError "_fallback_map")

/-- `name_for` (src line 27): `friendly.get(code, code)` — the mapped name if
present, otherwise the code itself. -/
def name_for (friendly : List (String × String)) (code : String) : String :=
  ((friendly.find? (fun p => p.1 = code)).map Prod.snd).getD code

/-- A row of the normalized dataset as the downstream views consume it:
after `normalize_columns`, `refPeriod` and `Value` are numeric and the
`Indicator Code` cell is used verbatim as a key (string). -/
structure Obs where
  period : ℚ
  code : String
  value : ℚ
deriving DecidableEq, Repr

/-- A machine-float result: a finite value, `inf`, `-inf`, or `NaN`, as
produced by pandas float division. -/
inductive FVal where
  | fin (q : ℚ)
  | inf
  | ninf
  | nan
deriving DecidableEq, Repr

/-- IEEE division as pandas performs it: `a / 0` is `NaN` when `a = 0`,
otherwise a signed infinity; finite otherwise. -/
def fdiv (a b : ℚ) : FVal :=
  if b = 0 then (if a = 0 then .nan else if 0 < a then .inf else .ninf)
  else .fin (a / b)

/-- The year-range filter (src line 123):
`df[(df["refPeriod"] >= lo) & (df["refPeriod"] <= hi)]`, inclusive bounds. -/
def filterRange (df : List Obs) (lo hi : ℚ) : List Obs :=
  df.filter fun r => decide (lo ≤ r.period) && decide (r.period ≤ hi)

/-- The indicator-code filter (src line 128):
`fdf[fdf["Indicator Code"].isin(codes)]`. -/
def filterCodes (df : List Obs) (codes : List String) : List Obs :=
  df.filter fun r => codes.contains r.code

/-- The composite filter applied before the line chart: year range first
(src line 123), then code membership (src line 128). -/
def filterDataset (df : List Obs) (lo hi : ℚ) (codes : List String) : List Obs :=
  filterCodes (filterRange df lo hi) codes

/-- Values of the rows matching `(p, c)`, in input order. -/
def valuesAt (sub : List Obs) (p : ℚ) (c : String) : List ℚ :=
  (sub.filter fun r => decide (r.period = p) && decide (r.code = c)).map Obs.value

/-- One cell of a `pivot_table(index="refPeriod", columns="Indicator Code",
values="Value")`: the arithmetic mean (default `aggfunc`) of all matching
values, `NaN` (`none`) when no row matches. -/
def cellMean (sub : List Obs) (p : ℚ) (c : String) : Option ℚ :=
  if (valuesAt sub p c).isEmpty then none
  else some ((valuesAt sub p c).sum / (valuesAt sub p c).length)

/-- The frame restricted to the requested codes:
`fdf[fdf["Indicator Code"].isin([codeA, codeB])]`. -/
def subOf (df : List Obs) (codes : List String) : List Obs :=
  df.filter fun r => codes.contains r.code

/-- The pivot's columns: the distinct requested codes that occur in the
restricted frame. -/
def colsOf (df : List Obs) (codes : List String) : List String :=
  codes.dedup.filter fun c => (subOf df codes).any fun r => r.code = c

/-- The pivot's index: the distinct periods of the restricted frame, sorted
ascending (`pivot_table` sorts its index). -/
def periodsOf (df : List Obs) (codes : List String) : List ℚ :=
  List.insertionSort (· ≤ ·) ((subOf df codes).map Obs.period).dedup

/-- The wide (pivoted) view shared by the scatter, ratio and rolling
correlation computations (src lines 156-158, 184-186, 198-200):
restrict to the requested codes, pivot with mean aggregation over the
sorted deduplicated period index, then `.dropna()` keeps exactly the
periods for which every pivot column has a value. Each output row is the
period with its per-code cells. -/
def wideView (df : List Obs) (codes : List String) :
    List (ℚ × List (String × ℚ)) :=
  ((periodsOf df codes).filter fun p =>
      (colsOf df codes).all fun c => (cellMean (subOf df codes) p c).isSome).map
    fun p => (p, (colsOf df codes).map fun c => (c, (cellMean (subOf df codes) p c).getD 0))

/-- The ratio line (src lines 184-188):
`wide_ratio["ratio"] = wide_ratio[num_code] / wide_ratio[den_code]` over the
wide view of the two codes; division anomalies propagate as `FVal`. -/
def ratioSeries (df : List Obs) (num den : String) : List (ℚ × FVal) :=
  (wideView df [num, den]).map fun r =>
    (r.1, fdiv ((r.2.lookup num).getD 0) ((r.2.lookup den).getD 0))

/-- The indexed value `value / base * 100` (src line 173) with IEEE
semantics: a zero base gives `NaN` (for a zero value) or a signed infinity. -/
def idxVal (v b : ℚ) : FVal :=
  if b = 0 then (if v = 0 then .nan else if 0 < v then .inf else .ninf)
  else .fin (v / b * 100)

/-- The indexed-to-100 view (src lines 169-175): restrict to the selected
codes; unless the base year occurs, render nothing (empty result); otherwise
the base of a code is the value of the first base-year row bearing that code
(`set_index("Indicator Code")["Value"].get(code, nan)`; with a unique
base-year row per code this is exactly the pandas scalar lookup), each row
gets `Index_100 = value / base * 100` with `NaN` for codes absent at the
base year, and `dropna(subset=["Index_100"])` removes exactly the `NaN`
rows (infinities survive). -/
def indexSeries (df : List Obs) (codes : List String) (baseYear : ℚ) :
    List (ℚ × String × FVal) :=
  let sub := df.filter fun r => codes.contains r.code
  if sub.isEmpty || !(sub.any fun r => r.period = baseYear) then []
  else
    let baseSub := sub.filter fun r => decide (r.period = baseYear)
    (sub.map fun r =>
      (r.period, r.code,
        match (baseSub.find? fun s => s.code = r.code).map Obs.value with
        | none => FVal.nan
        | some b => idxVal r.value b)).filter
      fun e => !(e.2.2 = FVal.nan : Bool)

/-- Arithmetic mean of a list of rationals. -/
def listMean (l : List ℚ) : ℚ := l.sum / l.length

/-- Sum of squared deviations from the mean (zero exactly when the window is
degenerate, i.e. the sample standard deviation vanishes). -/
def sqDevSum (l : List ℚ) : ℚ :=
  (l.map fun x => (x - listMean l) ^ 2).sum

/-- Sum of products of deviations (the covariance numerator). -/
def covSum (xs ys : List ℚ) : ℚ :=
  ((xs.zip ys).map fun p => (p.1 - listMean xs) * (p.2 - listMean ys)).sum

/-- The column of the wide view holding code `c` (e.g. `corr_wide[x_code]`).
The lookup always succeeds when `c` is one of the pivot's columns (every
surviving row has a cell for every column), and theorems about this access
carry that membership as a hypothesis: when `c` is absent from the pivoted
frame the source raises `KeyError` instead (the program crashes and emits
nothing), a case the zero default here does not represent. -/
def colOf (wv : List (ℚ × List (String × ℚ))) (c : String) : List ℚ :=
  wv.map fun r => (r.2.lookup c).getD 0

/-- The rolling-correlation entry at position `i` of
`xs.rolling(w).corr(ys)`: `none` (NaN) while fewer than `w` values are
available (`min_periods` defaults to the window) and when either window is
degenerate (zero variance makes Pearson `0/0 = NaN`); otherwise the defined
Pearson value, carried as the triple `(covSum, sqDevSum xs, sqDevSum ys)`
whose correlation is `covSum / sqrt (sqDevSum xs * sqDevSum ys)` — the
irrational square root keeps the numeric value itself outside `ℚ`, but
definedness, positions and counts (what the claims state) are exact. -/
def corrAt (xs ys : List ℚ) (w i : Nat) : Option (ℚ × ℚ × ℚ) :=
  if i + 1 < w then none
  else
    if sqDevSum ((xs.take (i + 1)).drop (i + 1 - w)) = 0 ∨
        sqDevSum ((ys.take (i + 1)).drop (i + 1 - w)) = 0 then none
    else
      some (covSum ((xs.take (i + 1)).drop (i + 1 - w)) ((ys.take (i + 1)).drop (i + 1 - w)),
        sqDevSum ((xs.take (i + 1)).drop (i + 1 - w)),
        sqDevSum ((ys.take (i + 1)).drop (i + 1 - w)))

/-- The rolling-correlation view (src lines 198-204): the wide view of the
two codes; when it has fewer than `w` rows nothing is rendered (empty
result, the guard on src line 201); otherwise `corr_df` has one row per
period of the wide view — `corr_series.reset_index()` keeps the `NaN`
positions as rows — pairing each period with its rolling-window entry.
This embedding is exact when both requested codes occur in the restricted
frame (so `corr_wide[x_code]` and `corr_wide[y_code]` both resolve); when a
requested code is absent while the length guard passes, the source raises
`KeyError` at src line 202 and emits nothing, which the total function here
does not represent — theorems about emitted rows therefore hypothesise
both columns present. -/
def rollingCorrelation (df : List Obs) (a b : String) (w : Nat) :
    List (ℚ × Option (ℚ × ℚ × ℚ)) :=
  if (wideView df [a, b]).length < w then []
  else
    (wideView df [a, b]).enum.map fun p =>
      (p.2.1, corrAt (colOf (wideView df [a, b]) a) (colOf (wideView df [a, b]) b) w p.1)

/-! ## Helper lemmas (shared by several claim proofs) -/

/-- `isNumCell` holds exactly on numeric cells. -/
theorem isNumCell_eq_true_iff (o : Option Cell) :
    isNumCell o = true ↔ ∃ q, o = some (.num q) := by
  cases o with
  | none => simp [isNumCell]
  | some c => cases c <;> simp [isNumCell]

/-- `find?` only looks at the predicate's values on the list. -/
theorem find?_congr_on {α : Type} (p q : α → Bool) :
    ∀ l : List α, (∀ a ∈ l, p a = q a) → l.find? p = l.find? q := by
  intro l
  induction l with
  | nil => intro _; rfl
  | cons a l ih =>
    intro h
    have ha := h a (List.mem_cons_self a l)
    simp only [List.find?]
    rw [ha]
    cases q a with
    | true => rfl
    | false => exact ih fun x hx => h x (List.mem_cons_of_mem a hx)

/-- `find?` returns the unique element satisfying the predicate. -/
theorem find?_eq_of_unique {α : Type} (p : α → Bool) :
    ∀ l : List α, ∀ r, r ∈ l → p r = true →
      (∀ s ∈ l, p s = true → s = r) → l.find? p = some r := by
  intro l
  induction l with
  | nil => intro r hr; cases hr
  | cons a l ih =>
    intro r hr hp huniq
    by_cases hpa : p a = true
    · have he : a = r := huniq a (List.mem_cons_self a l) hpa
      subst he
      simp [List.find?, hpa]
    · have hra : r ≠ a := fun h => hpa (h ▸ hp)
      have hrl : r ∈ l := by
        cases List.mem_cons.mp hr with
        | inl h => exact absurd h hra
        | inr h => exact h
      simp only [List.find?, Bool.not_eq_true] at hpa ⊢
      rw [hpa]
      exact ih r hrl hp fun s hs hps => huniq s (List.mem_cons_of_mem a hs) hps

/-- Renaming a column `old` to `nw` does not affect membership of any other
name. -/
theorem mem_map_subst (l : List String) (a old nw : String)
    (h1 : a ≠ old) (h2 : a ≠ nw) :
    (a ∈ l.map fun c => if c = old then nw else c) ↔ a ∈ l := by
  simp only [List.mem_map]
  constructor
  · rintro ⟨c, hc, hce⟩
    by_cases hco : c = old
    · rw [if_pos hco] at hce
      exact absurd hce.symm h2
    · rw [if_neg hco] at hce
      exact hce ▸ hc
  · intro ha
    exact ⟨a, ha, if_neg h1⟩

/-- Alias search for a canonical field is unaffected by renaming `refPeriod`
to `Year` when neither name is the canonical field or one of its aliases. -/
theorem findAlias_subst (cols : List String) (canonical : String) (alts : List String)
    (hc1 : canonical ≠ "refPeriod") (hc2 : canonical ≠ "Year")
    (ha : ∀ a ∈ alts, a ≠ "refPeriod" ∧ a ≠ "Year") :
    findAlias (cols.map fun c => if c = "refPeriod" then "Year" else c) canonical alts =
      findAlias cols canonical alts := by
  unfold findAlias
  by_cases hm : canonical ∈ cols
  · rw [if_pos ((mem_map_subst cols canonical _ _ hc1 hc2).mpr hm), if_pos hm]
  · rw [if_neg (fun h => hm ((mem_map_subst cols canonical _ _ hc1 hc2).mp h)), if_neg hm]
    apply find?_congr_on
    intro a hal
    exact decide_eq_decide.mpr (mem_map_subst cols a _ _ (ha a hal).1 (ha a hal).2)

/-- Renaming the `refPeriod` column to `Year` prepends exactly the inverse
pair to the rename dictionary. -/
theorem buildRen_subst (cols : List String)
    (hin : "refPeriod" ∈ cols) :
    buildRen (cols.map fun c => if c = "refPeriod" then "Year" else c) =
      ("Year", "refPeriod") :: buildRen cols := by
  have hrp : "refPeriod" ∉ cols.map fun c => if c = "refPeriod" then "Year" else c := by
    intro h
    obtain ⟨c, _, hce⟩ := List.mem_map.mp h
    by_cases hco : c = "refPeriod"
    · rw [if_pos hco] at hce; exact absurd hce (by decide)
    · rw [if_neg hco] at hce; exact hco hce
  have hyr : "Year" ∈ cols.map fun c => if c = "refPeriod" then "Year" else c :=
    List.mem_map.mpr ⟨"refPeriod", hin, if_pos rfl⟩
  unfold buildRen
  rw [findAlias_subst cols "Indicator Code" codeAliases (by decide) (by decide) (by decide),
      findAlias_subst cols "Value" valueAliases (by decide) (by decide) (by decide)]
  have h1 : findAlias (cols.map fun c => if c = "refPeriod" then "Year" else c)
      "refPeriod" periodAliases = some "Year" := by
    unfold findAlias
    rw [if_neg hrp]
    simp only [periodAliases, List.find?]
    rw [decide_eq_true hyr]
  have h2 : findAlias cols "refPeriod" periodAliases = none := by
    unfold findAlias
    rw [if_pos hin]
  rw [h1, h2]
  rfl

/-- A finite float value is never `NaN` (constructor disjointness, stated
for `decide` normalization in concrete evaluations). -/
theorem decide_fin_eq_nan (q : ℚ) : decide (FVal.fin q = FVal.nan) = false := rfl

/-- `find?` skips a head that fails the predicate. -/
theorem find?_cons_false {α : Type} (p : α → Bool) (a : α) (l : List α)
    (h : p a = false) : (a :: l).find? p = l.find? p := by
  simp only [List.find?]
  rw [h]

/-- `find?` stops at a head that satisfies the predicate. -/
theorem find?_cons_true {α : Type} (p : α → Bool) (a : α) (l : List α)
    (h : p a = true) : (a :: l).find? p = some a := by
  simp only [List.find?]
  rw [h]

/-- Membership in the singleton-or-empty list built from an optional alias. -/
theorem mem_optMap_toList {o : Option String} {tgt : String} {p : String × String}
    (hp : p ∈ (Option.map (fun a => (a, tgt)) o).toList) :
    ∃ a, o = some a ∧ p = (a, tgt) := by
  cases o with
  | none => cases hp
  | some a => exact ⟨a, rfl, List.mem_singleton.mp hp⟩

/-- A successful alias search returns one of the listed aliases. -/
theorem findAlias_mem (cols : List String) (canonical : String) (alts : List String)
    (a : String) (hf : findAlias cols canonical alts = some a) : a ∈ alts := by
  unfold findAlias at hf
  split at hf
  · cases hf
  · exact List.mem_of_find?_eq_some hf

/-- Every entry of the rename dictionary renames a listed alias of its
canonical field. -/
theorem buildRen_key_mem (cols : List String) :
    ∀ p ∈ buildRen cols,
      (p.2 = "refPeriod" ∧ p.1 ∈ periodAliases) ∨
      (p.2 = "Indicator Code" ∧ p.1 ∈ codeAliases) ∨
      (p.2 = "Value" ∧ p.1 ∈ valueAliases) := by
  intro p hp
  unfold buildRen at hp
  rcases List.mem_append.mp hp with hp12 | hp3
  · rcases List.mem_append.mp hp12 with hp1 | hp2
    · obtain ⟨a, hfa, hpe⟩ := mem_optMap_toList hp1
      subst hpe
      exact Or.inl ⟨rfl, findAlias_mem _ _ _ _ hfa⟩
    · obtain ⟨a, hfa, hpe⟩ := mem_optMap_toList hp2
      subst hpe
      exact Or.inr (Or.inl ⟨rfl, findAlias_mem _ _ _ _ hfa⟩)
  · obtain ⟨a, hfa, hpe⟩ := mem_optMap_toList hp3
    subst hpe
    exact Or.inr (Or.inr ⟨rfl, findAlias_mem _ _ _ _ hfa⟩)

/-- The rename dictionary never has `refPeriod` itself as a key (keys are
always aliases). -/
theorem buildRen_find_refPeriod (cols : List String) :
    (buildRen cols).find? (fun p => p.1 = "refPeriod") = none := by
  rw [List.find?_eq_none]
  intro p hp hpe
  have hkey := of_decide_eq_true hpe
  rcases buildRen_key_mem cols p hp with ⟨_, hal⟩ | ⟨_, hal⟩ | ⟨_, hal⟩ <;>
    (rw [hkey] at hal; revert hal; decide)

/-- The full column renaming commutes with the alias-rename substitution:
a table whose `refPeriod` column is instead named `Year` produces exactly
the same renamed column list. -/
theorem renameCols_subst (cols : List String)
    (hin : "refPeriod" ∈ cols) (hout : "Year" ∉ cols) :
    renameCols (buildRen (cols.map fun c => if c = "refPeriod" then "Year" else c))
        (cols.map fun c => if c = "refPeriod" then "Year" else c) =
      renameCols (buildRen cols) cols := by
  rw [buildRen_subst cols hin]
  unfold renameCols
  rw [List.map_map]
  apply List.map_congr_left
  intro c hc
  simp only [Function.comp]
  by_cases hcr : c = "refPeriod"
  · subst hcr
    show ((List.find? (fun p => decide (p.1 = "Year"))
        (("Year", "refPeriod") :: buildRen cols)).map Prod.snd).getD "Year" =
      ((List.find? (fun p => decide (p.1 = "refPeriod")) (buildRen cols)).map Prod.snd).getD "refPeriod"
    rw [find?_cons_true _ _ _ (by decide), buildRen_find_refPeriod cols]
    rfl
  · simp only [if_neg hcr]
    have hcy : c ≠ "Year" := fun h => hout (h ▸ hc)
    rw [find?_cons_false (fun p => decide (p.1 = c)) ("Year", "refPeriod") (buildRen cols)
      (decide_eq_false fun h : "Year" = c => hcy h.symm)]

/-- Structure of a wide-view row: its period passed the `dropna` test and
its cells are the per-column mean cells. -/
theorem wideView_mem (df : List Obs) (codes : List String) (p : ℚ)
    (row : List (String × ℚ)) (h : (p, row) ∈ wideView df codes) :
    p ∈ periodsOf df codes ∧
    ((colsOf df codes).all fun c => (cellMean (subOf df codes) p c).isSome) = true ∧
    row = (colsOf df codes).map fun c => (c, (cellMean (subOf df codes) p c).getD 0) := by
  unfold wideView at h
  obtain ⟨p', hp', heq⟩ := List.mem_map.mp h
  obtain ⟨hpmem, hpcond⟩ := List.mem_filter.mp hp'
  obtain ⟨hpp, hrow⟩ := Prod.mk.injEq .. ▸ heq
  subst hpp
  exact ⟨hpmem, hpcond, hrow.symm⟩

/-- The periods of the wide view are pairwise distinct. -/
theorem wideView_periods_nodup (df : List Obs) (codes : List String) :
    ((wideView df codes).map Prod.fst).Nodup := by
  have h1 : ((subOf df codes).map Obs.period).dedup.Nodup := List.nodup_dedup _
  have h2 : (periodsOf df codes).Nodup :=
    ((List.perm_insertionSort (· ≤ ·) _).nodup_iff).mpr h1
  have h3 : ((periodsOf df codes).filter fun p =>
      (colsOf df codes).all fun c => (cellMean (subOf df codes) p c).isSome).Nodup :=
    h2.filter _
  unfold wideView
  rw [List.map_map]
  have hcomp : (Prod.fst ∘ fun p => (p, (colsOf df codes).map
      fun c => (c, (cellMean (subOf df codes) p c).getD 0))) = fun p : ℚ => p := rfl
  rw [hcomp, List.map_id']
  exact h3

/-- Restricting to `[c, c]` keeps exactly the rows with code `c`. -/
theorem subOf_same_code (df : List Obs) (c : String) (r : Obs)
    (h : r ∈ subOf df [c, c]) : r.code = c := by
  unfold subOf at h
  have hcont := (List.mem_filter.mp h).2
  simp only [List.contains, List.elem_iff] at hcont
  rcases List.mem_cons.mp hcont with h1 | h1
  · exact h1
  · simpa using h1

/-- When the restricted frame is nonempty, pivoting on `[c, c]` yields the
single column `c`. -/
theorem colsOf_same_code (df : List Obs) (c : String) (hne : subOf df [c, c] ≠ []) :
    colsOf df [c, c] = [c] := by
  unfold colsOf
  have hded : ([c, c] : List String).dedup = [c] := by
    rw [List.dedup_cons_of_mem (by simp), List.dedup_cons_of_not_mem (by simp), List.dedup_nil]
  rw [hded]
  cases hsub : subOf df [c, c] with
  | nil => exact absurd hsub hne
  | cons a tl =>
    have hamem : a ∈ subOf df [c, c] := by
      rw [hsub]; exact List.mem_cons_self a tl
    have hac : a.code = c := subOf_same_code df c a hamem
    have hd : decide (a.code = c) = true := decide_eq_true hac
    simp [List.filter, hsub, hd]

/-- A wide-view row over `[c, c]` is the singleton cell of the mean of the
matching observations. -/
theorem wideView_same_code (df : List Obs) (c : String) (p : ℚ)
    (row : List (String × ℚ)) (h : (p, row) ∈ wideView df [c, c]) :
    ∃ v, row = [(c, v)] ∧ cellMean (subOf df [c, c]) p c = some v := by
  obtain ⟨hpmem, hcond, hrow⟩ := wideView_mem df [c, c] p row h
  have hne : subOf df [c, c] ≠ [] := by
    intro he
    have : periodsOf df [c, c] = [] := by
      unfold periodsOf
      rw [he]
      rfl
    rw [this] at hpmem
    cases hpmem
  rw [colsOf_same_code df c hne] at hcond hrow
  have hsome : (cellMean (subOf df [c, c]) p c).isSome = true := by
    simpa using hcond
  obtain ⟨v, hv⟩ := Option.isSome_iff_exists.mp hsome
  refine ⟨v, ?_, hv⟩
  rw [hrow]
  simp [hv]

/-- A defined pivot cell is the arithmetic mean of the matching values. -/
theorem cellMean_eq_some (sub : List Obs) (p : ℚ) (c : String) (v : ℚ)
    (h : cellMean sub p c = some v) :
    (valuesAt sub p c).length ≠ 0 ∧
    v = (valuesAt sub p c).sum / (valuesAt sub p c).length := by
  unfold cellMean at h
  split at h
  · cases h
  case isFalse hne =>
    simp only [Option.some.injEq] at h
    constructor
    · intro hlen
      exact hne (by rw [List.isEmpty_iff, ← List.length_eq_zero]; exact hlen)
    · exact h.symm

/-! ## Claim theorems -/

/-- C1: the claim says friendly-name loading falls back to a built-in
hardcoded mapping when the external file is absent, making resolution total.
The code's fallback branch returns `_fallback_map`, a name defined nowhere
in the program, so the absent-file load raises `NameError` instead of
producing any mapping: the program crashes at startup. -/
theorem C1_load_mapping_crashes_without_file :
    load_mapping none = Except.error (PyError.nameError "_fallback_map") ∧
    ∀ m, load_mapping (some m) = Except.ok m := by
  exact ⟨rfl, fun m => rfl⟩

/-- C4: for every raw table on which loading succeeds, every row of the
normalized output has a numeric `refPeriod` cell and a numeric `Value`
cell — rows failing numeric coercion are dropped, never kept with nulls. -/
theorem C4_no_missing_period_or_value (t t' : RawTable)
    (h : normalize_columns t = .ok t') :
    ∀ row ∈ t'.rows,
      (∃ q, getCell t'.cols row "refPeriod" = some (.num q)) ∧
      (∃ q, getCell t'.cols row "Value" = some (.num q)) := by
  intro row hrow
  unfold normalize_columns at h
  split at h
  · simp only [Except.ok.injEq] at h
    subst h
    simp only [dropnaPV, List.mem_filter, Bool.and_eq_true] at hrow
    exact ⟨(isNumCell_eq_true_iff _).mp hrow.2.1, (isNumCell_eq_true_iff _).mp hrow.2.2⟩
  · cases h

/-- C4 witness: a concrete successful load whose surviving row has numeric
period and value cells. -/
theorem C4_no_missing_period_or_value_witness :
    (∃ q, getCell ["refPeriod", "Indicator Code", "Value"]
        [Cell.num 2019, Cell.str "c", Cell.num 7] "refPeriod" = some (.num q)) ∧
    (∃ q, getCell ["refPeriod", "Indicator Code", "Value"]
        [Cell.num 2019, Cell.str "c", Cell.num 7] "Value" = some (.num q)) :=
  C4_no_missing_period_or_value
    ⟨["refPeriod", "Indicator Code", "Value"],
     [[Cell.num 2019, Cell.str "c", Cell.num 7], [Cell.str "bad", Cell.str "c", Cell.num 8]]⟩
    ⟨["refPeriod", "Indicator Code", "Value"],
     [[Cell.num 2019, Cell.str "c", Cell.num 7]]⟩
    (by rfl) [Cell.num 2019, Cell.str "c", Cell.num 7] (by decide)

/-- C5: when any canonical field is still absent after alias renaming,
loading fails with a `SchemaError` carrying exactly the missing fields and
the columns actually found, and no dataset is produced; when all three are
present, loading succeeds with a dataset and no such error. -/
theorem C5_schema_validation (t : RawTable) :
    ((∃ c ∈ requiredCols, c ∉ renameCols (buildRen t.cols) t.cols) →
      normalize_columns t = .error
        ⟨requiredCols.filter fun c => decide (c ∉ renameCols (buildRen t.cols) t.cols),
         renameCols (buildRen t.cols) t.cols⟩ ∧
      requiredCols.filter (fun c => decide (c ∉ renameCols (buildRen t.cols) t.cols)) ≠ []) ∧
    ((∀ c ∈ requiredCols, c ∈ renameCols (buildRen t.cols) t.cols) →
      ∃ t', normalize_columns t = .ok t') := by
  constructor
  · rintro ⟨c, hc, hnc⟩
    have hne : requiredCols.filter
        (fun c => decide (c ∉ renameCols (buildRen t.cols) t.cols)) ≠ [] := by
      intro hnil
      have := List.filter_eq_nil_iff.mp hnil c hc
      simp at this
      exact hnc this
    refine ⟨?_, hne⟩
    unfold normalize_columns
    rw [if_neg hne]
  · intro hall
    have hnil : requiredCols.filter
        (fun c => decide (c ∉ renameCols (buildRen t.cols) t.cols)) = [] := by
      apply List.filter_eq_nil_iff.mpr
      intro c hc
      simp [hall c hc]
    refine ⟨dropnaPV (coerceColumns ⟨renameCols (buildRen t.cols) t.cols, t.rows⟩), ?_⟩
    unfold normalize_columns
    rw [if_pos hnil]

/-- C5 witness: a table missing `Indicator Code` and `Value` fails with the
error naming them, and a complete table loads successfully. -/
theorem C5_schema_validation_witness :
    normalize_columns ⟨["Year", "foo"], [[Cell.num 2019, Cell.null]]⟩ =
      .error ⟨["Indicator Code", "Value"], ["refPeriod", "foo"]⟩ ∧
    ∃ t', normalize_columns
      ⟨["refPeriod", "Indicator Code", "Value"], [[Cell.num 2019, Cell.str "c", Cell.num 7]]⟩ = .ok t' := by
  constructor
  · exact ((C5_schema_validation ⟨["Year", "foo"], [[Cell.num 2019, Cell.null]]⟩).1
      ⟨"Value", by decide, by decide⟩).1
  · exact (C5_schema_validation
      ⟨["refPeriod", "Indicator Code", "Value"], [[Cell.num 2019, Cell.str "c", Cell.num 7]]⟩).2
      (by decide)

/-- C6: the filter keeps exactly the rows whose period lies in the inclusive
range and whose code is in the code set, preserving input order (the result
is the single-pass filter of the input, hence a sublist); an empty code set
yields the empty (valid) result; and the spec's end-to-end scenario holds. -/
theorem C6_filter (df : List Obs) (lo hi : ℚ) (codes : List String) :
    filterDataset df lo hi codes =
      df.filter (fun r =>
        decide (lo ≤ r.period) && decide (r.period ≤ hi) && codes.contains r.code) ∧
    (filterDataset df lo hi codes).Sublist df ∧
    (codes = [] → filterDataset df lo hi codes = []) ∧
    filterDataset
      [⟨2019, "DT.DOD.DECT.CD", 1000⟩, ⟨2020, "DT.DOD.DECT.CD", 1100⟩,
       ⟨2019, "DT.TDS.DECT.GN.ZS", 5⟩] 2019 2020 ["DT.DOD.DECT.CD"] =
      [⟨2019, "DT.DOD.DECT.CD", 1000⟩, ⟨2020, "DT.DOD.DECT.CD", 1100⟩] := by
  refine ⟨?_, ?_, ?_, by decide⟩
  · simp only [filterDataset, filterCodes, filterRange, List.filter_filter]
    apply List.filter_congr
    intro a _
    cases decide (lo ≤ a.period) <;> cases decide (a.period ≤ hi) <;>
      cases codes.contains a.code <;> rfl
  · exact (List.filter_sublist _).trans (List.filter_sublist _)
  · intro h
    subst h
    simp [filterDataset, filterCodes]

/-- C6 witness: the empty code set yields an empty result on a concrete
dataset. -/
theorem C6_filter_witness :
    filterDataset [⟨2019, "DT.DOD.DECT.CD", 1000⟩] 2019 2020 [] = [] :=
  (C6_filter [⟨2019, "DT.DOD.DECT.CD", 1000⟩] 2019 2020 []).2.2.1 rfl

/-- C3 counterexample: the claim says only the three canonical fields
survive normalization, but on a table with an extra column `Extra` the
output still carries `Extra` (the source never projects the columns). -/
theorem C3_counterexample :
    normalize_columns ⟨["refPeriod", "Indicator Code", "Value", "Extra"],
        [[Cell.num 2019, Cell.str "c", Cell.num 7, Cell.str "note"]]⟩ =
      .ok ⟨["refPeriod", "Indicator Code", "Value", "Extra"],
        [[Cell.num 2019, Cell.str "c", Cell.num 7, Cell.str "note"]]⟩ ∧
    "Extra" ∈ ["refPeriod", "Indicator Code", "Value", "Extra"] ∧
    "Extra" ∉ requiredCols :=
  ⟨rfl, by decide, by decide⟩

/-- C3 amended: for every raw table that passes validation, the output
keeps all input columns after alias renaming (extra columns survive,
unused downstream), the three canonical fields are guaranteed present,
and the rows are the coerced input rows in original order minus the
dropped ones. -/
theorem C3_amended_columns_preserved (t t' : RawTable)
    (h : normalize_columns t = .ok t') :
    t'.cols = renameCols (buildRen t.cols) t.cols ∧
    (∀ c ∈ requiredCols, c ∈ t'.cols) ∧
    t'.rows.Sublist
      (coerceColumns ⟨renameCols (buildRen t.cols) t.cols, t.rows⟩).rows := by
  unfold normalize_columns at h
  split at h
  case isTrue hcond =>
    simp only [Except.ok.injEq] at h
    subst h
    refine ⟨rfl, ?_, List.filter_sublist _⟩
    intro c hc
    have := List.filter_eq_nil_iff.mp hcond c hc
    simpa using this
  case isFalse => cases h

/-- C3 amended witness: on a concrete table with an extra column, the
output columns are the renamed input columns, contain the canonical three,
and the surviving rows are a sublist of the coerced rows. -/
theorem C3_amended_columns_preserved_witness :
    (RawTable.mk ["refPeriod", "Indicator Code", "Value", "Extra"]
        [[Cell.num 2019, Cell.str "c", Cell.num 7, Cell.str "note"]]).cols =
      renameCols (buildRen ["refPeriod", "Indicator Code", "Value", "Extra"])
        ["refPeriod", "Indicator Code", "Value", "Extra"] ∧
    (∀ c ∈ requiredCols,
      c ∈ (RawTable.mk ["refPeriod", "Indicator Code", "Value", "Extra"]
        [[Cell.num 2019, Cell.str "c", Cell.num 7, Cell.str "note"]]).cols) ∧
    (RawTable.mk ["refPeriod", "Indicator Code", "Value", "Extra"]
        [[Cell.num 2019, Cell.str "c", Cell.num 7, Cell.str "note"]]).rows.Sublist
      (coerceColumns ⟨renameCols (buildRen ["refPeriod", "Indicator Code", "Value", "Extra"])
          ["refPeriod", "Indicator Code", "Value", "Extra"],
        [[Cell.num 2019, Cell.str "c", Cell.num 7, Cell.str "note"]]⟩).rows :=
  C3_amended_columns_preserved
    ⟨["refPeriod", "Indicator Code", "Value", "Extra"],
     [[Cell.num 2019, Cell.str "c", Cell.num 7, Cell.str "note"]]⟩
    ⟨["refPeriod", "Indicator Code", "Value", "Extra"],
     [[Cell.num 2019, Cell.str "c", Cell.num 7, Cell.str "note"]]⟩
    (by rfl)

/-- C8: normalization is alias-invariant — a table whose period column is
named `Year` instead of `refPeriod` (same values) normalizes to exactly the
same output — and the rename dictionary applies at most one renaming per
canonical field, each taken from that field's fixed ordered alias list. -/
theorem C8_alias_invariance (t : RawTable)
    (hin : "refPeriod" ∈ t.cols) (hout : "Year" ∉ t.cols) :
    normalize_columns ⟨t.cols.map fun c => if c = "refPeriod" then "Year" else c, t.rows⟩ =
      normalize_columns t ∧
    (∀ cols : List String,
      ((buildRen cols).filter fun p => p.2 = "refPeriod").length ≤ 1 ∧
      ((buildRen cols).filter fun p => p.2 = "Indicator Code").length ≤ 1 ∧
      ((buildRen cols).filter fun p => p.2 = "Value").length ≤ 1) ∧
    (∀ cols : List String, ∀ p ∈ buildRen cols,
      (p.2 = "refPeriod" → p.1 ∈ periodAliases) ∧
      (p.2 = "Indicator Code" → p.1 ∈ codeAliases) ∧
      (p.2 = "Value" → p.1 ∈ valueAliases)) := by
  refine ⟨?_, ?_, ?_⟩
  · unfold normalize_columns
    rw [show (RawTable.mk (t.cols.map fun c => if c = "refPeriod" then "Year" else c) t.rows).cols
          = t.cols.map fun c => if c = "refPeriod" then "Year" else c from rfl,
        renameCols_subst t.cols hin hout]
  · intro cols
    unfold buildRen
    rcases findAlias cols "refPeriod" periodAliases with _ | a1 <;>
      rcases findAlias cols "Indicator Code" codeAliases with _ | a2 <;>
      rcases findAlias cols "Value" valueAliases with _ | a3 <;>
      refine ⟨?_, ?_, ?_⟩ <;> simp [List.filter]
  · intro cols p hp
    rcases buildRen_key_mem cols p hp with ⟨hcan, hal⟩ | ⟨hcan, hal⟩ | ⟨hcan, hal⟩ <;>
      refine ⟨fun he => ?_, fun he => ?_, fun he => ?_⟩ <;>
      first
        | exact hal
        | exact absurd (hcan.symm.trans he) (by decide)

/-- C8 witness: a concrete table with `Year` instead of `refPeriod`
normalizes identically to the canonical one. -/
theorem C8_alias_invariance_witness :
    normalize_columns
      ⟨["refPeriod", "Indicator Code", "Value"].map
          fun c => if c = "refPeriod" then "Year" else c,
        [[Cell.num 2019, Cell.str "c", Cell.num 7]]⟩ =
      normalize_columns
        ⟨["refPeriod", "Indicator Code", "Value"],
         [[Cell.num 2019, Cell.str "c", Cell.num 7]]⟩ :=
  (C8_alias_invariance
    ⟨["refPeriod", "Indicator Code", "Value"],
     [[Cell.num 2019, Cell.str "c", Cell.num 7]]⟩ (by decide) (by decide)).1

/-- C7 counterexample: the claim says every code with an observation at the
base year gets indexed value exactly 100 there; with the single observation
`(2019, "X", 0)` and base year 2019 the base value is 0, so `0 / 0 * 100`
is `NaN`, the row is dropped by `dropna`, and the output is empty — no
value 100 is produced at the base year. -/
theorem C7_counterexample :
    (⟨2019, "X", 0⟩ : Obs) ∈ ([⟨2019, "X", 0⟩] : List Obs) ∧
    ("X" : String) ∈ (["X"] : List String) ∧
    indexSeries [⟨2019, "X", 0⟩] ["X"] 2019 = [] := by
  exact ⟨by decide, by decide, by rfl⟩

/-- C7 amended: for every code whose base-year observation is unique and
has nonzero value, the indexed value of that code at the base year is
exactly 100; and the spec's end-to-end scenario holds: on the two
`DT.DOD.DECT.CD` rows with base year 2019 the output is
`{2019 : 100.0, 2020 : 110.0}`. -/
theorem C7_indexed_base_100 :
    (∀ (df : List Obs) (codes : List String) (c : String) (baseYear : ℚ) (r : Obs),
      r ∈ df → r.code = c → c ∈ codes → r.period = baseYear → r.value ≠ 0 →
      (∀ s ∈ df, s.code = c → s.period = baseYear → s = r) →
      (baseYear, c, FVal.fin 100) ∈ indexSeries df codes baseYear) ∧
    indexSeries [⟨2019, "DT.DOD.DECT.CD", 1000⟩, ⟨2020, "DT.DOD.DECT.CD", 1100⟩]
        ["DT.DOD.DECT.CD"] 2019 =
      [(2019, "DT.DOD.DECT.CD", FVal.fin 100), (2020, "DT.DOD.DECT.CD", FVal.fin 110)] := by
  constructor
  · intro df codes c baseYear r hr hrc hcc hrp hv huniq
    have hrsub : r ∈ df.filter fun s => codes.contains s.code := by
      refine List.mem_filter.mpr ⟨hr, ?_⟩
      simp only [List.contains, List.elem_iff]
      exact hrc ▸ hcc
    have hguard : ¬ (((df.filter fun s => codes.contains s.code).isEmpty ||
        !((df.filter fun s => codes.contains s.code).any fun s =>
          decide (s.period = baseYear))) = true) := by
      simp only [Bool.or_eq_true, Bool.not_eq_true']
      rintro (he | ha)
      · rw [List.isEmpty_iff] at he
        rw [he] at hrsub
        cases hrsub
      · have : (df.filter fun s => codes.contains s.code).any
            (fun s => decide (s.period = baseYear)) = true :=
          List.any_eq_true.mpr ⟨r, hrsub, by simp [hrp]⟩
        rw [this] at ha
        cases ha
    have hbase : ((df.filter fun s => codes.contains s.code).filter
          fun s => decide (s.period = baseYear)).find?
        (fun s => decide (s.code = c)) = some r := by
      apply find?_eq_of_unique
      · exact List.mem_filter.mpr ⟨hrsub, by simp [hrp]⟩
      · simp [hrc]
      · intro s hs hsc
        have hs1 := List.mem_filter.mp hs
        have hs2 := List.mem_filter.mp hs1.1
        exact huniq s hs2.1 (by simpa using hsc) (by simpa using hs1.2)
    unfold indexSeries
    rw [if_neg hguard]
    refine List.mem_filter.mpr ⟨List.mem_map.mpr ⟨r, hrsub, ?_⟩, by simp⟩
    rw [hrc, hbase]
    show (r.period, c, idxVal r.value r.value) = (baseYear, c, FVal.fin 100)
    rw [hrp]
    unfold idxVal
    rw [if_neg hv, div_self hv, one_mul]
  · norm_num [indexSeries, idxVal, List.filter, List.map, List.find?, List.any,
      List.isEmpty, decide_fin_eq_nan]

/-- C7 witness: a concrete unique nonzero base-year observation receives
indexed value 100 at the base year. -/
theorem C7_indexed_base_100_witness :
    ((2019 : ℚ), "c", FVal.fin 100) ∈
      indexSeries [⟨2019, "c", 4⟩, ⟨2020, "c", 6⟩] ["c"] 2019 :=
  C7_indexed_base_100.1 [⟨2019, "c", 4⟩, ⟨2020, "c", 6⟩] ["c"] "c" 2019 ⟨2019, "c", 4⟩
    (by decide) rfl (by decide) rfl (by decide) (by decide)

/-- C9: with equal numerator and denominator codes, every emitted ratio is
exactly 1 except at periods whose (mean-aggregated) cell value is 0, where
the IEEE anomaly `0/0 = NaN` is carried through in the output unmodified
(the row count matches the wide view: nothing is dropped or masked). -/
theorem C9_ratio_same_code (df : List Obs) (c : String) :
    (ratioSeries df c c).length = (wideView df [c, c]).length ∧
    ∀ p fv, (p, fv) ∈ ratioSeries df c c →
      ∃ v, cellMean (subOf df [c, c]) p c = some v ∧ fv = fdiv v v ∧
        (v ≠ 0 → fv = FVal.fin 1) ∧ (v = 0 → fv = FVal.nan) := by
  constructor
  · unfold ratioSeries
    exact List.length_map _ _
  · intro p fv hmem
    unfold ratioSeries at hmem
    obtain ⟨r, hr, heq⟩ := List.mem_map.mp hmem
    obtain ⟨v, hrow, hcell⟩ := wideView_same_code df c r.1 r.2 (by
      have : (r.1, r.2) = r := rfl
      rw [this]
      exact hr)
    have hl : r.2.lookup c = some v := by
      rw [hrow]
      simp [List.lookup]
    rw [hl] at heq
    obtain ⟨hp, hfv⟩ := Prod.mk.injEq .. ▸ heq
    subst hp
    refine ⟨v, hcell, hfv.symm, ?_, ?_⟩
    · intro hv
      rw [← hfv]
      show fdiv v v = FVal.fin 1
      unfold fdiv
      rw [if_neg hv, div_self hv]
    · intro hv
      rw [← hfv]
      show fdiv v v = FVal.nan
      unfold fdiv
      rw [if_pos hv, if_pos hv]

/-- C9 witness: a concrete same-code ratio series emits the value 1. -/
theorem C9_ratio_same_code_witness :
    ∃ v, cellMean (subOf [⟨2019, "c", 4⟩] [ "c", "c"]) 2019 "c" = some v ∧
      FVal.fin 1 = fdiv v v ∧
      (v ≠ 0 → FVal.fin 1 = FVal.fin 1) ∧ (v = 0 → FVal.fin 1 = FVal.nan) :=
  (C9_ratio_same_code [⟨2019, "c", 4⟩] "c").2 2019 (FVal.fin 1) (by
    norm_num [ratioSeries, wideView, periodsOf, subOf, colsOf, cellMean, valuesAt,
      List.insertionSort, List.orderedInsert, List.dedup, List.filter, List.lookup,
      List.contains, fdiv])

/-- C10: in every wide (pivoted) view — the construction shared by the
scatter, ratio and rolling-correlation computations — periods are pairwise
distinct, every cell is the arithmetic mean of all observations sharing
its (period, code) pair, and the derived ratio and rolling-correlation
series inherit the distinct periods, so duplicate rows never appear
individually in any derived series. -/
theorem C10_pivot_mean_aggregation (df : List Obs) (codes : List String) :
    ((wideView df codes).map Prod.fst).Nodup ∧
    (∀ p row, (p, row) ∈ wideView df codes → ∀ c v, (c, v) ∈ row →
      (valuesAt (subOf df codes) p c).length ≠ 0 ∧
      v = (valuesAt (subOf df codes) p c).sum / (valuesAt (subOf df codes) p c).length) ∧
    (∀ num den, ((ratioSeries df num den).map Prod.fst).Nodup) ∧
    (∀ a b w, ((rollingCorrelation df a b w).map Prod.fst).Nodup) := by
  refine ⟨wideView_periods_nodup df codes, ?_, ?_, ?_⟩
  · intro p row hmem c v hcv
    obtain ⟨hpmem, hcond, hrow⟩ := wideView_mem df codes p row hmem
    rw [hrow] at hcv
    obtain ⟨c', hc', hceq⟩ := List.mem_map.mp hcv
    have hcc : c' = c := congrArg Prod.fst hceq
    have hvv : (cellMean (subOf df codes) p c').getD 0 = v := congrArg Prod.snd hceq
    have hsome : (cellMean (subOf df codes) p c').isSome = true :=
      List.all_eq_true.mp hcond c' hc'
    obtain ⟨m, hm⟩ := Option.isSome_iff_exists.mp hsome
    have hmc : cellMean (subOf df codes) p c = some m := hcc ▸ hm
    have hvm : v = m := by rw [← hvv, hm, Option.getD_some]
    subst hvm
    exact cellMean_eq_some _ _ _ _ hmc
  · intro num den
    have hmap : (ratioSeries df num den).map Prod.fst =
        (wideView df [num, den]).map Prod.fst := by
      unfold ratioSeries
      rw [List.map_map]
      exact List.map_congr_left fun r _ => rfl
    rw [hmap]
    exact wideView_periods_nodup df [num, den]
  · intro a b w
    unfold rollingCorrelation
    split
    · simp
    · rw [List.map_map]
      have hcomp : (Prod.fst ∘ fun p : ℕ × (ℚ × List (String × ℚ)) =>
          (p.2.1, corrAt (colOf (wideView df [a, b]) a) (colOf (wideView df [a, b]) b) w p.1)) =
          Prod.fst ∘ (Prod.snd : ℕ × (ℚ × List (String × ℚ)) → ℚ × List (String × ℚ)) := rfl
      rw [hcomp, ← List.map_map, List.enum_map_snd]
      exact wideView_periods_nodup df [a, b]

/-- C10 witness: two duplicate observations of the same (period, code) are
collapsed into the single cell holding their arithmetic mean. -/
theorem C10_pivot_mean_aggregation_witness :
    (valuesAt (subOf [⟨2019, "c", 1⟩, ⟨2019, "c", 3⟩] ["c"]) 2019 "c").length ≠ 0 ∧
    (2 : ℚ) = (valuesAt (subOf [⟨2019, "c", 1⟩, ⟨2019, "c", 3⟩] ["c"]) 2019 "c").sum /
      (valuesAt (subOf [⟨2019, "c", 1⟩, ⟨2019, "c", 3⟩] ["c"]) 2019 "c").length :=
  (C10_pivot_mean_aggregation [⟨2019, "c", 1⟩, ⟨2019, "c", 3⟩] ["c"]).2.1
    2019 [("c", 2)] (by
      have hwv : wideView [⟨2019, "c", 1⟩, ⟨2019, "c", 3⟩] ["c"] = [(2019, [("c", 2)])] := by
        norm_num [wideView, periodsOf, subOf, colsOf, cellMean, valuesAt,
          List.insertionSort, List.orderedInsert, List.dedup, List.filter,
          List.contains, List.any, List.all, List.map, List.elem]
      rw [hwv]
      exact List.mem_singleton.mpr rfl) "c" 2 (by decide)

/-- C2 counterexample: on three joint periods with window 3, the output is
not a single correlation row — `corr_series.reset_index()` keeps one row
per period, the first `window - 1` of them emitted as placeholder rows with
an undefined (`NaN`) correlation, exactly what the claim says is excluded. -/
theorem C2_counterexample :
    rollingCorrelation [⟨2019, "A", 1⟩, ⟨2020, "A", 2⟩, ⟨2021, "A", 3⟩,
        ⟨2019, "B", 1⟩, ⟨2020, "B", 2⟩, ⟨2021, "B", 5⟩] "A" "B" 3 =
      [(2019, none), (2020, none), (2021, some (4, 2, 26 / 3))] ∧
    (rollingCorrelation [⟨2019, "A", 1⟩, ⟨2020, "A", 2⟩, ⟨2021, "A", 3⟩,
        ⟨2019, "B", 1⟩, ⟨2020, "B", 2⟩, ⟨2021, "B", 5⟩] "A" "B" 3).length = 3 ∧
    ((rollingCorrelation [⟨2019, "A", 1⟩, ⟨2020, "A", 2⟩, ⟨2021, "A", 3⟩,
        ⟨2019, "B", 1⟩, ⟨2020, "B", 2⟩, ⟨2021, "B", 5⟩] "A" "B" 3).filter
      fun e => e.2.isSome).length = 1 ∧
    ((2019 : ℚ), (none : Option (ℚ × ℚ × ℚ))) ∈
      rollingCorrelation [⟨2019, "A", 1⟩, ⟨2020, "A", 2⟩, ⟨2021, "A", 3⟩,
        ⟨2019, "B", 1⟩, ⟨2020, "B", 2⟩, ⟨2021, "B", 5⟩] "A" "B" 3 := by
  have h : rollingCorrelation [⟨2019, "A", 1⟩, ⟨2020, "A", 2⟩, ⟨2021, "A", 3⟩,
      ⟨2019, "B", 1⟩, ⟨2020, "B", 2⟩, ⟨2021, "B", 5⟩] "A" "B" 3 =
      [(2019, none), (2020, none), (2021, some (4, 2, 26 / 3))] := by
    norm_num [rollingCorrelation, wideView, periodsOf, subOf, colsOf, cellMean, valuesAt,
      colOf, corrAt, sqDevSum, covSum, listMean,
      List.insertionSort, List.orderedInsert, List.dedup, List.filter,
      List.contains, List.any, List.all, List.map, List.elem, List.enum, List.enumFrom,
      List.take, List.drop, List.zip, List.zipWith, List.lookup, List.sum,
      show (("B" : String) == "A") = false from rfl]
  refine ⟨h, by rw [h]; rfl, by rw [h]; rfl, by rw [h]; exact List.mem_cons_self _ _⟩

/-- C2 amended, stated on the inputs where both requested codes occur in
the restricted frame (the pivot then has both columns, so the column
accesses `corr_wide[codeA]` and `corr_wide[codeB]` succeed; when a
requested code is absent while the length guard passes, the source instead
raises `KeyError` and emits nothing): when the joint wide view has fewer
than `window` periods the result is empty; otherwise one output row is
emitted per joint period (the first `window - 1` as placeholder rows whose
correlation entry is undefined, not zero); and with exactly `window` joint
periods whose two series are both non-constant, exactly one row carries a
defined correlation value. -/
theorem C2_rolling_correlation (df : List Obs) (a b : String) (w : Nat)
    (ha : a ∈ colsOf df [a, b]) (hb : b ∈ colsOf df [a, b]) :
    ((wideView df [a, b]).length < w → rollingCorrelation df a b w = []) ∧
    (w ≤ (wideView df [a, b]).length →
      (rollingCorrelation df a b w).length = (wideView df [a, b]).length) ∧
    (∀ i (h : i < (rollingCorrelation df a b w).length), i + 1 < w →
      (rollingCorrelation df a b w)[i].2 = none) ∧
    ((wideView df [a, b]).length = w → 1 ≤ w →
      sqDevSum (colOf (wideView df [a, b]) a) ≠ 0 →
      sqDevSum (colOf (wideView df [a, b]) b) ≠ 0 →
      ((rollingCorrelation df a b w).filter fun e => e.2.isSome).length = 1) := by
  refine ⟨?_, ?_, ?_, ?_⟩
  · intro hlt
    unfold rollingCorrelation
    rw [if_pos hlt]
  · intro hge
    unfold rollingCorrelation
    rw [if_neg (not_lt.mpr hge), List.length_map, List.enum_length]
  · intro i h hi
    by_cases hlt : (wideView df [a, b]).length < w
    · exfalso
      unfold rollingCorrelation at h
      rw [if_pos hlt] at h
      simp at h
    · have hrw : rollingCorrelation df a b w =
          (wideView df [a, b]).enum.map (fun p => (p.2.1,
            corrAt (colOf (wideView df [a, b]) a) (colOf (wideView df [a, b]) b) w p.1)) := by
        unfold rollingCorrelation
        rw [if_neg hlt]
      simp only [hrw, List.getElem_map, List.getElem_enum]
      show corrAt (colOf (wideView df [a, b]) a) (colOf (wideView df [a, b]) b) w i = none
      unfold corrAt
      rw [if_pos hi]
  · intro hlen hw1 hsx hsy
    obtain ⟨k, hk⟩ : ∃ k, w = k + 1 := ⟨w - 1, (Nat.succ_pred_eq_of_pos hw1).symm⟩
    subst hk
    unfold rollingCorrelation
    rw [if_neg (by rw [hlen]; exact lt_irrefl _)]
    rw [← List.countP_eq_length_filter, List.countP_map]
    have hcv : (wideView df [a, b]).enum.countP
        ((fun e : ℚ × Option (ℚ × ℚ × ℚ) => e.2.isSome) ∘ fun p =>
          (p.2.1, corrAt (colOf (wideView df [a, b]) a) (colOf (wideView df [a, b]) b) (k + 1) p.1)) =
        (List.range (wideView df [a, b]).length).countP
          (fun i => (corrAt (colOf (wideView df [a, b]) a)
            (colOf (wideView df [a, b]) b) (k + 1) i).isSome) := by
      rw [← List.enum_map_fst (wideView df [a, b]), List.countP_map]
      rfl
    rw [hcv, hlen, List.range_succ, List.countP_append]
    have h0 : (List.range k).countP
        (fun i => (corrAt (colOf (wideView df [a, b]) a)
          (colOf (wideView df [a, b]) b) (k + 1) i).isSome) = 0 := by
      rw [List.countP_eq_zero]
      intro i hi
      have hik : i < k := List.mem_range.mp hi
      unfold corrAt
      rw [if_pos (by omega)]
      simp
    have hxl : (colOf (wideView df [a, b]) a).length = k + 1 := by
      unfold colOf
      rw [List.length_map, hlen]
    have hyl : (colOf (wideView df [a, b]) b).length = k + 1 := by
      unfold colOf
      rw [List.length_map, hlen]
    have h1 : corrAt (colOf (wideView df [a, b]) a) (colOf (wideView df [a, b]) b) (k + 1) k =
        some (covSum (colOf (wideView df [a, b]) a) (colOf (wideView df [a, b]) b),
          sqDevSum (colOf (wideView df [a, b]) a), sqDevSum (colOf (wideView df [a, b]) b)) := by
      have hta : (colOf (wideView df [a, b]) a).take (k + 1) = colOf (wideView df [a, b]) a := by
        rw [← hxl, List.take_length]
      have htb : (colOf (wideView df [a, b]) b).take (k + 1) = colOf (wideView df [a, b]) b := by
        rw [← hyl, List.take_length]
      unfold corrAt
      rw [if_neg (by omega)]
      rw [show k + 1 - (k + 1) = 0 from Nat.sub_self _, List.drop_zero, List.drop_zero,
        hta, htb]
      rw [if_neg (not_or.mpr ⟨hsx, hsy⟩)]
    rw [h0, List.countP_cons, List.countP_nil, h1]
    rfl

/-- C2 witness: with both codes present but fewer joint periods than the
window, the rolling-correlation output is empty. -/
theorem C2_rolling_correlation_witness :
    rollingCorrelation [⟨2019, "A", 1⟩, ⟨2020, "A", 2⟩, ⟨2021, "A", 3⟩,
        ⟨2019, "B", 1⟩, ⟨2020, "B", 2⟩, ⟨2021, "B", 5⟩] "A" "B" 4 = [] :=
  (C2_rolling_correlation [⟨2019, "A", 1⟩, ⟨2020, "A", 2⟩, ⟨2021, "A", 3⟩,
      ⟨2019, "B", 1⟩, ⟨2020, "B", 2⟩, ⟨2021, "B", 5⟩] "A" "B" 4
    (by decide) (by decide)).1 (by decide)
